import Mathlib

/-!
# Verification of the aRPC capture-and-decode pipeline

A shallow embedding of the packet-capture examples of the `appnet-org/arpc`
repository: the two kernel capture programs
(`examples/bpf/intercept_sendmsg.py` and `examples/bpf/intercept_tc.py`),
the two copies of the Variant A frame decoder (`decode_arpc_frame`), the
Variant B decoder (`decode_rpc_frame` in `examples/bpf/tc/tc.py`), and the
teardown paths.

Bytes are modelled as `Nat` (values `< 256` by construction where it
matters), buffers as `List Nat`, and Python strings as lists of Unicode
code points (`List Nat`).  Python's total slicing `data[a:b]` is
`(data.drop a).take b - a`; `struct.unpack` under a length guard always
sees a slice of exact size.
-/

namespace ARPC


/-! ## Little-endian integers and Python slices -/

/-- Python's `data[off:off+n]`: total, clamps at the end of the buffer. -/
def sliceLen (d : List Nat) (off n : Nat) : List Nat := (d.drop off).take n

/-- `struct.unpack("<H", data[off:off+2])[0]`; meaningful only when the
slice has exactly two bytes (the decoders guard this before calling). -/
def readU16 (d : List Nat) (off : Nat) : Nat :=
  match sliceLen d off 2 with
  | [b0, b1] => b0 + 256 * b1
  | _ => 0

/-- `struct.unpack("<I", ...)`, guarded to a 4-byte slice. -/
def readU32 (d : List Nat) (off : Nat) : Nat :=
  match sliceLen d off 4 with
  | [b0, b1, b2, b3] => b0 + 256 * b1 + 65536 * b2 + 16777216 * b3
  | _ => 0

/-- `struct.unpack("<Q", ...)`, guarded to an 8-byte slice. -/
def readU64 (d : List Nat) (off : Nat) : Nat :=
  match sliceLen d off 8 with
  | [b0, b1, b2, b3, b4, b5, b6, b7] =>
      b0 + 256 * b1 + 65536 * b2 + 16777216 * b3 + 4294967296 * b4 +
        1099511627776 * b5 + 281474976710656 * b6 + 72057594037927936 * b7
  | _ => 0

/-- `struct.pack("<H", n)` for `n < 2^16`. -/
def u16bytes (n : Nat) : List Nat := [n % 256, n / 256 % 256]

/-- `struct.pack("<I", n)` for `n < 2^32`. -/
def u32bytes (n : Nat) : List Nat :=
  [n % 256, n / 256 % 256, n / 65536 % 256, n / 16777216 % 256]

/-- `struct.pack("<Q", n)` for `n < 2^64`. -/
def u64bytes (n : Nat) : List Nat :=
  [n % 256, n / 256 % 256, n / 65536 % 256, n / 16777216 % 256,
   n / 4294967296 % 256, n / 1099511627776 % 256,
   n / 281474976710656 % 256, n / 72057594037927936 % 256]

/-! ## UTF-8 with `errors="ignore"`

CPython's UTF-8 decoder with the `ignore` error handler: valid sequences
(no overlongs, no surrogates, at most U+10FFFF) become code points, and on
an invalid sequence the offending bytes (the maximal valid subpart, then
the stray byte) are silently dropped. -/

/-- A Unicode scalar value: what a Python `str` element ranges over. -/
def ValidCp (c : Nat) : Prop := c < 0xD800 ∨ (0xDFFF < c ∧ c < 0x110000)

instance (c : Nat) : Decidable (ValidCp c) := by
  unfold ValidCp; infer_instance

/-- UTF-8 encoding of one code point (`str.encode("utf-8")`, per char). -/
def utf8EncodeChar (c : Nat) : List Nat :=
  if c < 0x80 then [c]
  else if c < 0x800 then [0xC0 + c / 64, 0x80 + c % 64]
  else if c < 0x10000 then
    [0xE0 + c / 4096, 0x80 + c / 64 % 64, 0x80 + c % 64]
  else
    [0xF0 + c / 262144, 0x80 + c / 4096 % 64, 0x80 + c / 64 % 64,
     0x80 + c % 64]

/-- `str.encode("utf-8")` on a list of code points. -/
def utf8Encode (cs : List Nat) : List Nat := (cs.map utf8EncodeChar).flatten

/-- Validity of the second byte of a multi-byte UTF-8 sequence, which
depends on the lead byte (no overlongs, no surrogates, at most U+10FFFF). -/
def SecondOk (b0 b : Nat) : Prop :=
  (b0 = 0xE0 → 0xA0 ≤ b) ∧ (b0 = 0xED → b ≤ 0x9F) ∧
  (b0 = 0xF0 → 0x90 ≤ b) ∧ (b0 = 0xF4 → b ≤ 0x8F) ∧
  0x80 ≤ b ∧ b ≤ 0xBF

instance (b0 b : Nat) : Decidable (SecondOk b0 b) := by
  unfold SecondOk; infer_instance

/-- Validity of a third or fourth continuation byte. -/
def ContOk (b : Nat) : Prop := 0x80 ≤ b ∧ b ≤ 0xBF

instance (b : Nat) : Decidable (ContOk b) := by
  unfold ContOk; infer_instance

/-- Start a fresh sequence at byte `b` (empty pending state): ASCII is
emitted, a valid lead byte becomes pending, anything else is dropped. -/
def utf8Lead (b : Nat) : List Nat × List Nat :=
  if b < 0x80 then ([b], [])
  else if b < 0xC2 then ([], [])
  else if b ≤ 0xF4 then ([], [b])
  else ([], [])

/-- One byte of incremental UTF-8 decoding with the `ignore` handler: from
the pending partial sequence and the next byte, the emitted code points and
the new pending state.  On an invalid continuation the pending bytes (the
maximal subpart) are dropped and the current byte starts afresh. -/
def utf8Step : List Nat → Nat → List Nat × List Nat
  | [], b => utf8Lead b
  | [b0], b =>
    if SecondOk b0 b then
      if b0 ≤ 0xDF then ([(b0 - 0xC0) * 64 + (b - 0x80)], [])
      else ([], [b0, b])
    else utf8Lead b
  | [b0, b1], b =>
    if ContOk b then
      if b0 ≤ 0xEF then
        ([(b0 - 0xE0) * 4096 + (b1 - 0x80) * 64 + (b - 0x80)], [])
      else ([], [b0, b1, b])
    else utf8Lead b
  | [b0, b1, b2], b =>
    if ContOk b then
      ([(b0 - 0xF0) * 262144 + (b1 - 0x80) * 4096 + (b2 - 0x80) * 64 +
        (b - 0x80)], [])
    else utf8Lead b
  | _, b => utf8Lead b

/-- Run the incremental decoder over a buffer; a pending partial sequence
left at the end of the buffer is dropped (`ignore`). -/
def utf8Run : List Nat → List Nat → List Nat
  | _, [] => []
  | pend, b :: r =>
    let s := utf8Step pend b
    s.1 ++ utf8Run s.2 r

/-- `bytes.decode("utf-8", errors="ignore")`: total; drops invalid bytes. -/
def utf8DecodeIgnore (l : List Nat) : List Nat := utf8Run [] l

/-! ## Length-prefixed fields and offset arithmetic -/

/-- Wire encoding of a length-prefixed byte field (u16 LE length). -/
def lenPrefixed (bs : List Nat) : List Nat := u16bytes bs.length ++ bs

/-! ## Variant A decoder, copy in `intercept_sendmsg.py`

`decode_arpc_frame` there validates `len(data) < offset + n` before every
slice and reports the field name and the offset at which the check failed.
Its `try/except` is provably never reached: every guarded slice has exact
size, `decode(..., errors="ignore")` and `hex()` are total. -/

inductive AResult
  | ok (service method : List Nat) (headers payload : List Nat)
  | tooShort (field : String) (offset : Nat)
  deriving DecidableEq, Repr

/-- `decode_arpc_frame` from `examples/bpf/intercept_sendmsg.py`. -/
def decodeArpc (data : List Nat) : AResult :=
  if data.length < 0 + 2 then .tooShort "service_len" 0
  else
    let serviceLen := readU16 data 0
    if data.length < 2 + serviceLen then .tooShort "service" 2
    else
      let service := utf8DecodeIgnore (sliceLen data 2 serviceLen)
      let o1 := 2 + serviceLen
      if data.length < o1 + 2 then .tooShort "method_len" o1
      else
        let methodLen := readU16 data o1
        if data.length < o1 + 2 + methodLen then .tooShort "method" (o1 + 2)
        else
          let method := utf8DecodeIgnore (sliceLen data (o1 + 2) methodLen)
          let o2 := o1 + 2 + methodLen
          if data.length < o2 + 2 then .tooShort "header_len" o2
          else
            let headerLen := readU16 data o2
            if data.length < o2 + 2 + headerLen then
              .tooShort "headers" (o2 + 2)
            else
              .ok service method (sliceLen data (o2 + 2) headerLen)
                (data.drop (o2 + 2 + headerLen))

/-- A Variant A frame assembled from raw field bytes (no UTF-8 validity
assumed): `u16 len | bytes` three times, then the payload. -/
def rawEncodeA (sb mb hb p : List Nat) : List Nat :=
  lenPrefixed sb ++ (lenPrefixed mb ++ (lenPrefixed hb ++ p))

/-- Spec-side contract for truncation of a Variant A frame: a buffer cut
`k` bytes in fails on the first field whose declared length is not
covered, reporting that field and the offset of the failing check
(`Truncated(field, offset)` in the spec's taxonomy). -/
def specTruncationA (slen mlen k : Nat) : AResult :=
  if k < 2 then .tooShort "service_len" 0
  else if k < 2 + slen then .tooShort "service" 2
  else if k < 2 + slen + 2 then .tooShort "method_len" (2 + slen)
  else if k < 2 + slen + 2 + mlen then .tooShort "method" (2 + slen + 2)
  else if k < 2 + slen + 2 + mlen + 2 then
    .tooShort "header_len" (2 + slen + 2 + mlen)
  else .tooShort "headers" (2 + slen + 2 + mlen + 2)

/-! ## Variant A decoder, copy in `intercept_tc.py`

That copy validates only the very first length field (and its error
message carries no offset).  Later `struct.unpack` calls are unguarded:
on a short slice they raise `struct.error`, which the surrounding
`try/except` turns into a generic `"Error: ..."` status. -/

inductive ATCResult
  | ok (service method : List Nat) (headers payload : List Nat)
  | tooShort (field : String)
  | caught
  deriving DecidableEq, Repr

/-- `decode_arpc_frame` from `examples/bpf/intercept_tc.py`. -/
def decodeArpcTC (data : List Nat) : ATCResult :=
  if data.length < 0 + 2 then .tooShort "service_len"
  else
    let serviceLen := readU16 data 0
    let service := utf8DecodeIgnore (sliceLen data 2 serviceLen)
    let o1 := 2 + serviceLen
    match sliceLen data o1 2 with
    | [a0, a1] =>
      let methodLen := a0 + 256 * a1
      let method := utf8DecodeIgnore (sliceLen data (o1 + 2) methodLen)
      let o2 := o1 + 2 + methodLen
      match sliceLen data o2 2 with
      | [c0, c1] =>
        let headerLen := c0 + 256 * c1
        .ok service method (sliceLen data (o2 + 2) headerLen)
          (data.drop (o2 + 2 + headerLen))
      | _ => .caught
    | _ => .caught

/-! ## Variant B decoder (`decode_rpc_frame` in `examples/bpf/tc/tc.py`)

The trailing parameter pairs land in a Python `dict`
(`params[param_name] = param_value`): insertion-ordered, a repeated name
keeps its first position but overwrites the value.  Any partial trailing
pair `break`s out of the loop, keeping the parameters decoded so far. -/

/-- `params[name] = value` on an insertion-ordered Python dict. -/
def dictInsert : List (List Nat × List Nat) → List Nat → List Nat →
    List (List Nat × List Nat)
  | [], k, v => [(k, v)]
  | (k0, v0) :: rest, k, v =>
    if k0 = k then (k0, v) :: rest
    else (k0, v0) :: dictInsert rest k v

/-- The parameter loop of `decode_rpc_frame`.  The fuel only bounds the
recursion depth; every iteration advances `offset` by at least 4, so a
fuel of `data.length + 1` always suffices. -/
def decodeParamsAux : Nat → List Nat → Nat → List (List Nat × List Nat) →
    List (List Nat × List Nat)
  | 0, _, _, ps => ps
  | fuel + 1, data, offset, ps =>
    if offset < data.length then
      if data.length < offset + 2 then ps
      else
        let paramLen := readU16 data offset
        if data.length < offset + 2 + paramLen then ps
        else
          let name := utf8DecodeIgnore (sliceLen data (offset + 2) paramLen)
          let o2 := offset + 2 + paramLen
          if data.length < o2 + 2 then ps
          else
            let valueLen := readU16 data o2
            if data.length < o2 + 2 + valueLen then ps
            else
              let value := utf8DecodeIgnore (sliceLen data (o2 + 2) valueLen)
              decodeParamsAux fuel data (o2 + 2 + valueLen)
                (dictInsert ps name value)
    else ps

/-- The parameter loop, started at `offset` with an empty dict. -/
def decodeParams (data : List Nat) (offset : Nat) :
    List (List Nat × List Nat) :=
  decodeParamsAux (data.length + 1) data offset []

inductive BResult
  | ok (messageId protocolVersion : Nat) (service method : List Nat)
      (messageType : Nat) (params : List (List Nat × List Nat))
  | tooShort (field : String) (offset : Nat)
  deriving DecidableEq, Repr

/-- `decode_rpc_frame` from `examples/bpf/tc/tc.py`. -/
def decodeRpc (data : List Nat) : BResult :=
  if data.length < 0 + 8 then .tooShort "message_id" 0
  else
    let messageId := readU64 data 0
    if data.length < 8 + 4 then .tooShort "protocol_version" 8
    else
      let protocolVersion := readU32 data 8
      if data.length < 12 + 2 then .tooShort "service_len" 12
      else
        let serviceLen := readU16 data 12
        if data.length < 14 + serviceLen then .tooShort "service" 14
        else
          let service := utf8DecodeIgnore (sliceLen data 14 serviceLen)
          let o1 := 14 + serviceLen
          if data.length < o1 + 2 then .tooShort "method_len" o1
          else
            let methodLen := readU16 data o1
            if data.length < o1 + 2 + methodLen then
              .tooShort "method" (o1 + 2)
            else
              let method := utf8DecodeIgnore (sliceLen data (o1 + 2) methodLen)
              let o2 := o1 + 2 + methodLen
              if data.length < o2 + 4 then .tooShort "message_type" o2
              else
                let messageType := readU32 data o2
                .ok messageId protocolVersion service method messageType
                  (decodeParams data (o2 + 4))

/-- Wire encoding of one parameter pair from raw bytes. -/
def encPair (nm vl : List Nat) : List Nat := lenPrefixed nm ++ lenPrefixed vl

/-- Wire encoding of a parameter list from raw bytes. -/
def encodeParamsRaw (ps : List (List Nat × List Nat)) : List Nat :=
  (ps.map fun q => encPair q.1 q.2).flatten

/-- Fixed-size head of a Variant B frame from raw field bytes. -/
def rawEncodeBHead (mid pv : Nat) (sb mb : List Nat) (mt : Nat) : List Nat :=
  u64bytes mid ++ (u32bytes pv ++ (lenPrefixed sb ++ (lenPrefixed mb ++
    u32bytes mt)))

/-- A full Variant B frame from raw field bytes. -/
def rawEncodeB (mid pv : Nat) (sb mb : List Nat) (mt : Nat)
    (ps : List (List Nat × List Nat)) : List Nat :=
  rawEncodeBHead mid pv sb mb mt ++ encodeParamsRaw ps

/-- The dict the parameter loop builds from fully decoded pairs. -/
def paramsDict (ps : List (List Nat × List Nat)) :
    List (List Nat × List Nat) :=
  ps.foldl (fun a q => dictInsert a (utf8DecodeIgnore q.1)
    (utf8DecodeIgnore q.2)) []

/-- Tails at which the parameter loop of `decode_rpc_frame` stops without
consuming a pair: nothing left, a lone byte, a pair whose name bytes are
missing, whose value-length header is missing, or whose value bytes are
missing. -/
inductive ParamBreak : List Nat → Prop
  | nil : ParamBreak []
  | single (b : Nat) : ParamBreak [b]
  | nameShort (n : Nat) (t : List Nat) (hn : n < 65536) (ht : t.length < n) :
      ParamBreak (u16bytes n ++ t)
  | valueHdrShort (n : Nat) (nm t : List Nat) (hn : n < 65536)
      (hnm : nm.length = n) (ht : t.length < 2) :
      ParamBreak (u16bytes n ++ (nm ++ t))
  | valueShort (n v : Nat) (nm t : List Nat) (hn : n < 65536)
      (hv : v < 65536) (hnm : nm.length = n) (ht : t.length < v) :
      ParamBreak (u16bytes n ++ (nm ++ (u16bytes v ++ t)))

/-! ## String-level Variant A and B frames and the round-trip re-encoders -/

/-- A Variant A frame built from decoded-level fields: the service and
method are code-point strings, encoded to UTF-8 on the wire. -/
def encodeA (svc mth : List Nat) (hb p : List Nat) : List Nat :=
  rawEncodeA (utf8Encode svc) (utf8Encode mth) hb p

/-- Re-encode the fields recovered by `decodeArpc` (round-trip law). -/
def reencodeA : AResult → Option (List Nat)
  | .ok s m hb p => some (encodeA s m hb p)
  | _ => none

/-- A Variant B frame built from decoded-level fields. -/
def encodeB (mid pv : Nat) (svc mth : List Nat) (mt : Nat)
    (ps : List (List Nat × List Nat)) : List Nat :=
  rawEncodeB mid pv (utf8Encode svc) (utf8Encode mth) mt
    (ps.map fun q => (utf8Encode q.1, utf8Encode q.2))

/-- Re-encode the fields recovered by `decodeRpc` (round-trip law). -/
def reencodeB : BResult → Option (List Nat)
  | .ok mid pv s m mt ps => some (encodeB mid pv s m mt ps)
  | _ => none

/-! ## Kernel capture programs

`trace_udp_sendmsg` (kprobe on `udp_sendmsg`) and `handle_egress` (TC
classifier).  One call processes one candidate event against the shared
`packet_count` hash (modelled as the optional value at its single key) and
either emits one fixed-layout record into the perf channel or nothing. -/

def MAX_DATA_LEN : Nat := 256

def UDP_PORT : Nat := 9000

def ETH_P_IP : Nat := 0x0800

def IPPROTO_UDP : Nat := 17

/-- One `udp_sendmsg` call as seen by the kprobe: pid, source port from
the socket, destination port from `msg_name` when non-NULL, the first
iovec (`payload`, with `iov_len = payload.length`), and whether the
bounded `bpf_probe_read_user` of `iov_base` succeeds. -/
structure SendmsgEvent where
  pid : Nat
  sport : Nat
  msgName : Option Nat
  payload : List Nat
  readOk : Bool

/-- The `data_t` record of `intercept_sendmsg.py` (task name omitted). -/
structure DataRecord where
  pid : Nat
  dstPort : Nat
  srcPort : Nat
  dataLen : Nat
  data : List Nat
  deriving DecidableEq, Repr

/-- `trace_udp_sendmsg` from `examples/bpf/intercept_sendmsg.py`:
filter by destination port, cap the read at `MAX_DATA_LEN`, abort the
event if the user-memory read fails, else bump the counter and emit. -/
def traceUdpSendmsg (ev : SendmsgEvent) (counter : Option Nat) :
    Option DataRecord × Option Nat :=
  let dport := ev.msgName.getD 0
  if dport ≠ UDP_PORT then (none, counter)
  else
    let dataLen := min ev.payload.length MAX_DATA_LEN
    if ev.readOk = false then (none, counter)
    else
      (some ⟨ev.pid, dport, ev.sport, dataLen, ev.payload.take dataLen⟩,
        some (counter.getD 0 + 1))

/-- One egress frame as parsed by `handle_egress`: link protocol, IP
protocol, UDP ports and length in host order (`udpLen` counts the 8-byte
UDP header plus the payload), and the payload bytes in the skb. -/
structure TCPacket where
  ethProto : Nat
  ipProtocol : Nat
  udpDest : Nat
  udpSource : Nat
  udpLen : Nat
  payload : List Nat

/-- The `data_t` record of `intercept_tc.py`. -/
structure TCRecord where
  dstPort : Nat
  srcPort : Nat
  dataLen : Nat
  data : List Nat
  deriving DecidableEq, Repr

/-- `handle_egress` from `examples/bpf/intercept_tc.py`: filter on
IP/UDP/destination port, cap the copied payload at `MAX_DATA_LEN`, bump
the counter and emit. -/
def handleEgress (pkt : TCPacket) (counter : Option Nat) :
    Option TCRecord × Option Nat :=
  if pkt.ethProto ≠ ETH_P_IP then (none, counter)
  else if pkt.ipProtocol ≠ IPPROTO_UDP then (none, counter)
  else if pkt.udpDest ≠ UDP_PORT then (none, counter)
  else if 8 < pkt.udpLen then
    let payloadLen := min (pkt.udpLen - 8) MAX_DATA_LEN
    (some ⟨pkt.udpDest, pkt.udpSource, payloadLen,
        pkt.payload.take payloadLen⟩,
      some (counter.getD 0 + 1))
  else (none, counter)

/-! ## Teardown

`main` in `examples/bpf/tc/tc.py` removes the ingress qdisc and the htb
qdisc in a `finally` block, each wrapped in `try: ... except: pass`; the
`KeyboardInterrupt` handler of `intercept_tc.py` shells out to
`tc qdisc del` via `os.system`, which reports failure through an exit
status and never raises.  The removal primitive is modelled as raising
whenever the hook is already absent — the worst case for idempotence. -/

structure TCHooks where
  ingress : Bool
  htb : Bool
  deriving DecidableEq, Repr

/-- `ipr.tc("del", ...)`: result state and whether it raised. -/
def tcDel (present : Bool) : Bool × Bool :=
  if present then (false, false) else (false, true)

/-- The teardown sequence of `main`'s `finally` block: each removal is
wrapped in `try: ... except: pass`, so nothing propagates. -/
def detach (s : TCHooks) : TCHooks × Bool :=
  let r1 := tcDel s.ingress
  let r2 := tcDel s.htb
  (⟨r1.1, r2.1⟩, false)

/-- `os.system("tc qdisc del ... clsact")`: exit status, never raises. -/
def osSystemTcDel (present : Bool) : Nat × Bool :=
  (if present then 0 else 512, false)

/-- The `KeyboardInterrupt` teardown of `intercept_tc.py`: state after,
and whether an exception propagated. -/
def detachIntercept (clsactPresent : Bool) : Bool × Bool :=
  (false, (osSystemTcDel clsactPresent).2)

/-- Decoding an encoded scalar value in front of any byte tail recovers the
scalar and continues with the tail. -/
lemma utf8_decode_encodeChar (c : Nat) (h : ValidCp c) (bs : List Nat) :
    utf8DecodeIgnore (utf8EncodeChar c ++ bs) = c :: utf8DecodeIgnore bs := by
  have h' : c < 0x110000 ∧ ¬ (0xD800 ≤ c ∧ c ≤ 0xDFFF) := by
    unfold ValidCp at h; omega
  unfold utf8DecodeIgnore
  by_cases h1 : c < 0x80
  · simp only [utf8EncodeChar, if_pos h1, List.cons_append, List.nil_append,
      utf8Run, utf8Step, utf8Lead]
  · by_cases h2 : c < 0x800
    · simp only [utf8EncodeChar, if_neg h1, if_pos h2, List.cons_append,
        List.nil_append, utf8Run, utf8Step, utf8Lead]
      rw [if_neg (by omega), if_neg (by omega), if_pos (by omega)]
      simp only [utf8Run, utf8Step]
      rw [if_pos (by unfold SecondOk; omega), if_pos (by omega)]
      simp only [List.singleton_append]
      have hx : (0xC0 + c / 64 - 0xC0) * 64 + (0x80 + c % 64 - 0x80) = c :=
        by omega
      rw [hx]
      simp only [List.nil_append]
    · by_cases h3 : c < 0x10000
      · simp only [utf8EncodeChar, if_neg h1, if_neg h2, if_pos h3,
          List.cons_append, List.nil_append, utf8Run, utf8Step, utf8Lead]
        rw [if_neg (by omega), if_neg (by omega), if_pos (by omega)]
        simp only [utf8Run, utf8Step]
        rw [if_pos (by unfold SecondOk; omega), if_neg (by omega)]
        simp only [utf8Run, utf8Step]
        rw [if_pos (by unfold ContOk; omega), if_pos (by omega)]
        simp only [List.nil_append, List.singleton_append]
        have hx : (0xE0 + c / 4096 - 0xE0) * 4096 +
            (0x80 + c / 64 % 64 - 0x80) * 64 + (0x80 + c % 64 - 0x80) = c :=
          by omega
        rw [hx]
      · simp only [utf8EncodeChar, if_neg h1, if_neg h2, if_neg h3,
          List.cons_append, List.nil_append, utf8Run, utf8Step, utf8Lead]
        rw [if_neg (by omega), if_neg (by omega), if_pos (by omega)]
        simp only [utf8Run, utf8Step]
        rw [if_pos (by unfold SecondOk; omega), if_neg (by omega)]
        simp only [utf8Run, utf8Step]
        rw [if_pos (by unfold ContOk; omega), if_neg (by omega)]
        simp only [utf8Run, utf8Step]
        rw [if_pos (by unfold ContOk; omega)]
        simp only [List.nil_append, List.singleton_append]
        have hx : (0xF0 + c / 262144 - 0xF0) * 262144 +
            (0x80 + c / 4096 % 64 - 0x80) * 4096 +
            (0x80 + c / 64 % 64 - 0x80) * 64 + (0x80 + c % 64 - 0x80) = c :=
          by omega
        rw [hx]

/-- `bytes.decode("utf-8", "ignore")` inverts `str.encode("utf-8")`. -/
lemma utf8_roundtrip (cs : List Nat) (h : ∀ c ∈ cs, ValidCp c) :
    utf8DecodeIgnore (utf8Encode cs) = cs := by
  induction cs with
  | nil => rfl
  | cons c cs ih =>
    have he : utf8Encode (c :: cs) = utf8EncodeChar c ++ utf8Encode cs := by
      simp [utf8Encode]
    rw [he, utf8_decode_encodeChar c (h c (by simp)),
      ih (fun x hx => h x (by simp [hx]))]

lemma length_lenPrefixed (bs : List Nat) :
    (lenPrefixed bs).length = 2 + bs.length := by
  simp [lenPrefixed, u16bytes]
  omega

/-- Dropping past a whole length-prefixed field lands in the remainder. -/
lemma drop_strip (bs X : List Nat) (off : Nat) (h : 2 + bs.length ≤ off) :
    (lenPrefixed bs ++ X).drop off = X.drop (off - (2 + bs.length)) := by
  have h2 : off = (lenPrefixed bs).length + (off - (2 + bs.length)) := by
    rw [length_lenPrefixed]; omega
  conv_lhs => rw [h2, ← List.drop_drop, List.drop_left]

lemma sliceLen_strip (bs X : List Nat) (off n : Nat)
    (h : 2 + bs.length ≤ off) :
    sliceLen (lenPrefixed bs ++ X) off n =
      sliceLen X (off - (2 + bs.length)) n := by
  unfold sliceLen
  rw [drop_strip bs X off h]

lemma readU16_strip (bs X : List Nat) (off : Nat) (h : 2 + bs.length ≤ off) :
    readU16 (lenPrefixed bs ++ X) off = readU16 X (off - (2 + bs.length)) := by
  unfold readU16
  rw [sliceLen_strip bs X off 2 h]

/-- Reading the u16 length in front of a length-prefixed field. -/
lemma readU16_lenPrefixed (bs X : List Nat) (h : bs.length < 65536) :
    readU16 (lenPrefixed bs ++ X) 0 = bs.length := by
  simp only [readU16, sliceLen, lenPrefixed, u16bytes, List.cons_append,
    List.nil_append, List.drop_zero, List.take_succ_cons, List.take_zero]
  omega

/-- Slicing the content of a length-prefixed field. -/
lemma sliceLen_lenPrefixed (bs X : List Nat) :
    sliceLen (lenPrefixed bs ++ X) 2 bs.length = bs := by
  simp only [sliceLen, lenPrefixed, u16bytes, List.cons_append,
    List.nil_append, List.drop_succ_cons, List.drop_zero]
  exact List.take_left bs X

/-- `decodeArpc` on any structurally well-formed buffer succeeds and
recovers every field; string fields pass through `utf8DecodeIgnore`. -/
lemma decodeArpc_rawEncodeA (sb mb hb p : List Nat)
    (hs : sb.length < 65536) (hm : mb.length < 65536)
    (hh : hb.length < 65536) :
    decodeArpc (rawEncodeA sb mb hb p) =
      .ok (utf8DecodeIgnore sb) (utf8DecodeIgnore mb) hb p := by
  have hlen : (rawEncodeA sb mb hb p).length =
      6 + sb.length + mb.length + hb.length + p.length := by
    simp [rawEncodeA, length_lenPrefixed, List.length_append]
    omega
  have r1 : readU16 (rawEncodeA sb mb hb p) 0 = sb.length :=
    readU16_lenPrefixed sb _ hs
  have s1 : sliceLen (rawEncodeA sb mb hb p) 2 sb.length = sb :=
    sliceLen_lenPrefixed sb _
  have r2 : readU16 (rawEncodeA sb mb hb p) (2 + sb.length) = mb.length := by
    rw [rawEncodeA, readU16_strip sb _ _ (by omega)]
    have : 2 + sb.length - (2 + sb.length) = 0 := by omega
    rw [this, readU16_lenPrefixed mb _ hm]
  have s2 : sliceLen (rawEncodeA sb mb hb p) (2 + sb.length + 2) mb.length =
      mb := by
    rw [rawEncodeA, sliceLen_strip sb _ _ _ (by omega)]
    have : 2 + sb.length + 2 - (2 + sb.length) = 2 := by omega
    rw [this, sliceLen_lenPrefixed mb _]
  have r3 : readU16 (rawEncodeA sb mb hb p)
      (2 + sb.length + 2 + mb.length) = hb.length := by
    rw [rawEncodeA, readU16_strip sb _ _ (by omega),
      readU16_strip mb _ _ (by omega)]
    have : 2 + sb.length + 2 + mb.length - (2 + sb.length) -
        (2 + mb.length) = 0 := by omega
    rw [this, readU16_lenPrefixed hb _ hh]
  have s3 : sliceLen (rawEncodeA sb mb hb p)
      (2 + sb.length + 2 + mb.length + 2) hb.length = hb := by
    rw [rawEncodeA, sliceLen_strip sb _ _ _ (by omega),
      sliceLen_strip mb _ _ _ (by omega)]
    have : 2 + sb.length + 2 + mb.length + 2 - (2 + sb.length) -
        (2 + mb.length) = 2 := by omega
    rw [this, sliceLen_lenPrefixed hb _]
  have d4 : (rawEncodeA sb mb hb p).drop
      (2 + sb.length + 2 + mb.length + 2 + hb.length) = p := by
    rw [rawEncodeA, drop_strip sb _ _ (by omega),
      drop_strip mb _ _ (by omega), drop_strip hb _ _ (by omega)]
    have : 2 + sb.length + 2 + mb.length + 2 + hb.length -
        (2 + sb.length) - (2 + mb.length) - (2 + hb.length) = 0 := by omega
    rw [this, List.drop_zero]
  simp only [decodeArpc, r1, s1, r2, s2, r3, s3, d4, hlen]
  rw [if_neg (by omega), if_neg (by omega), if_neg (by omega),
    if_neg (by omega), if_neg (by omega), if_neg (by omega)]

/-- Reading whole inside a truncated buffer agrees with the full buffer. -/
lemma readU16_take (d : List Nat) (k off : Nat) (h : off + 2 ≤ k) :
    readU16 (d.take k) off = readU16 d off := by
  unfold readU16 sliceLen
  rw [List.drop_take k off d, List.take_take 2 (k - off) (d.drop off),
    Nat.min_eq_left (by omega)]

lemma length_rawEncodeA (sb mb hb p : List Nat) :
    (rawEncodeA sb mb hb p).length =
      6 + sb.length + mb.length + hb.length + p.length := by
  simp [rawEncodeA, length_lenPrefixed, List.length_append]
  omega

lemma rawA_read1 (sb mb hb p : List Nat) (hs : sb.length < 65536) :
    readU16 (rawEncodeA sb mb hb p) 0 = sb.length :=
  readU16_lenPrefixed sb _ hs

lemma rawA_read2 (sb mb hb p : List Nat) (hm : mb.length < 65536) :
    readU16 (rawEncodeA sb mb hb p) (2 + sb.length) = mb.length := by
  rw [rawEncodeA, readU16_strip sb _ _ (by omega)]
  have e : 2 + sb.length - (2 + sb.length) = 0 := by omega
  rw [e, readU16_lenPrefixed mb _ hm]

lemma rawA_read3 (sb mb hb p : List Nat) (hh : hb.length < 65536) :
    readU16 (rawEncodeA sb mb hb p) (2 + sb.length + 2 + mb.length) =
      hb.length := by
  rw [rawEncodeA, readU16_strip sb _ _ (by omega),
    readU16_strip mb _ _ (by omega)]
  have e : 2 + sb.length + 2 + mb.length - (2 + sb.length) -
      (2 + mb.length) = 0 := by omega
  rw [e, readU16_lenPrefixed hb _ hh]

/-- The `intercept_sendmsg.py` decoder, on a well-formed Variant A frame
cut strictly before the end of its header part, reports exactly the field
and offset of the first failing length check. -/
lemma decodeArpc_take (sb mb hb p : List Nat) (k : Nat)
    (hs : sb.length < 65536) (hm : mb.length < 65536)
    (hh : hb.length < 65536)
    (hk : k < 6 + sb.length + mb.length + hb.length) :
    decodeArpc ((rawEncodeA sb mb hb p).take k) =
      specTruncationA sb.length mb.length k := by
  have hlen : ((rawEncodeA sb mb hb p).take k).length = k := by
    simp [List.length_take, length_rawEncodeA]
    omega
  by_cases c1 : k < 2
  · have L : decodeArpc ((rawEncodeA sb mb hb p).take k) =
        .tooShort "service_len" 0 := by
      simp only [decodeArpc, hlen]
      rw [if_pos (by omega)]
    rw [L, specTruncationA, if_pos c1]
  · have t1 : readU16 ((rawEncodeA sb mb hb p).take k) 0 = sb.length := by
      rw [readU16_take _ _ _ (by omega), rawA_read1 sb mb hb p hs]
    by_cases c2 : k < 2 + sb.length
    · have L : decodeArpc ((rawEncodeA sb mb hb p).take k) =
          .tooShort "service" 2 := by
        simp only [decodeArpc, hlen, t1]
        rw [if_neg (by omega), if_pos c2]
      rw [L, specTruncationA, if_neg c1, if_pos c2]
    · by_cases c3 : k < 2 + sb.length + 2
      · have L : decodeArpc ((rawEncodeA sb mb hb p).take k) =
            .tooShort "method_len" (2 + sb.length) := by
          simp only [decodeArpc, hlen, t1]
          rw [if_neg (by omega), if_neg (by omega), if_pos (by omega)]
        rw [L, specTruncationA, if_neg c1, if_neg c2, if_pos c3]
      · have t2 : readU16 ((rawEncodeA sb mb hb p).take k)
            (2 + sb.length) = mb.length := by
          rw [readU16_take _ _ _ (by omega), rawA_read2 sb mb hb p hm]
        by_cases c4 : k < 2 + sb.length + 2 + mb.length
        · have L : decodeArpc ((rawEncodeA sb mb hb p).take k) =
              .tooShort "method" (2 + sb.length + 2) := by
            simp only [decodeArpc, hlen, t1, t2]
            rw [if_neg (by omega), if_neg (by omega), if_neg (by omega),
              if_pos (by omega)]
          rw [L, specTruncationA, if_neg c1, if_neg c2, if_neg c3,
            if_pos c4]
        · by_cases c5 : k < 2 + sb.length + 2 + mb.length + 2
          · have L : decodeArpc ((rawEncodeA sb mb hb p).take k) =
                .tooShort "header_len" (2 + sb.length + 2 + mb.length) := by
              simp only [decodeArpc, hlen, t1, t2]
              rw [if_neg (by omega), if_neg (by omega), if_neg (by omega),
                if_neg (by omega), if_pos (by omega)]
            rw [L, specTruncationA, if_neg c1, if_neg c2, if_neg c3,
              if_neg c4, if_pos c5]
          · have t3 : readU16 ((rawEncodeA sb mb hb p).take k)
                (2 + sb.length + 2 + mb.length) = hb.length := by
              rw [readU16_take _ _ _ (by omega), rawA_read3 sb mb hb p hh]
            have L : decodeArpc ((rawEncodeA sb mb hb p).take k) =
                .tooShort "headers" (2 + sb.length + 2 + mb.length + 2) := by
              simp only [decodeArpc, hlen, t1, t2, t3]
              rw [if_neg (by omega), if_neg (by omega), if_neg (by omega),
                if_neg (by omega), if_neg (by omega), if_pos (by omega)]
            rw [L, specTruncationA, if_neg c1, if_neg c2, if_neg c3,
              if_neg c4, if_neg c5]

/-! ## Offset arithmetic for the Variant B head -/

lemma drop_shift (pre X : List Nat) (off : Nat) (h : pre.length ≤ off) :
    (pre ++ X).drop off = X.drop (off - pre.length) := by
  have h2 : off = pre.length + (off - pre.length) := by omega
  conv_lhs => rw [h2, ← List.drop_drop, List.drop_left]

lemma sliceLen_shift (pre X : List Nat) (off n : Nat)
    (h : pre.length ≤ off) :
    sliceLen (pre ++ X) off n = sliceLen X (off - pre.length) n := by
  unfold sliceLen
  rw [drop_shift pre X off h]

lemma readU16_shift (pre X : List Nat) (off : Nat) (h : pre.length ≤ off) :
    readU16 (pre ++ X) off = readU16 X (off - pre.length) := by
  unfold readU16
  rw [sliceLen_shift pre X off 2 h]

lemma readU32_shift (pre X : List Nat) (off : Nat) (h : pre.length ≤ off) :
    readU32 (pre ++ X) off = readU32 X (off - pre.length) := by
  unfold readU32
  rw [sliceLen_shift pre X off 4 h]

lemma readU64_u64bytes (n : Nat) (X : List Nat)
    (h : n < 18446744073709551616) :
    readU64 (u64bytes n ++ X) 0 = n := by
  simp only [readU64, sliceLen, u64bytes, List.cons_append, List.nil_append,
    List.drop_zero, List.take_succ_cons, List.take_zero]
  omega

lemma readU32_u32bytes (n : Nat) (X : List Nat) (h : n < 4294967296) :
    readU32 (u32bytes n ++ X) 0 = n := by
  simp only [readU32, sliceLen, u32bytes, List.cons_append, List.nil_append,
    List.drop_zero, List.take_succ_cons, List.take_zero]
  omega

lemma length_u64bytes (n : Nat) : (u64bytes n).length = 8 := rfl

lemma length_u32bytes (n : Nat) : (u32bytes n).length = 4 := rfl

lemma length_rawEncodeBHead (mid pv : Nat) (sb mb : List Nat) (mt : Nat) :
    (rawEncodeBHead mid pv sb mb mt).length =
      20 + sb.length + mb.length := by
  simp only [rawEncodeBHead, List.length_append, length_lenPrefixed,
    length_u64bytes, length_u32bytes]
  omega

/-- `decode_rpc_frame` on a structurally well-formed head followed by any
parameter-region bytes: the head decodes field by field and the parameter
loop starts right after the head. -/
lemma decodeRpc_head (mid pv : Nat) (sb mb : List Nat) (mt : Nat)
    (rest : List Nat) (hmid : mid < 18446744073709551616)
    (hpv : pv < 4294967296) (hs : sb.length < 65536)
    (hm : mb.length < 65536) (hmt : mt < 4294967296) :
    decodeRpc (rawEncodeBHead mid pv sb mb mt ++ rest) =
      .ok mid pv (utf8DecodeIgnore sb) (utf8DecodeIgnore mb) mt
        (decodeParams (rawEncodeBHead mid pv sb mb mt ++ rest)
          (14 + sb.length + 2 + mb.length + 4)) := by
  set data := rawEncodeBHead mid pv sb mb mt ++ rest with hdata
  have hlen : data.length = 20 + sb.length + mb.length + rest.length := by
    rw [hdata, List.length_append, length_rawEncodeBHead]
  have hassoc : data = u64bytes mid ++ (u32bytes pv ++ (lenPrefixed sb ++
      (lenPrefixed mb ++ (u32bytes mt ++ rest)))) := by
    rw [hdata, rawEncodeBHead]
    simp [List.append_assoc]
  have r1 : readU64 data 0 = mid := by
    rw [hassoc, readU64_u64bytes mid _ hmid]
  have r2 : readU32 data 8 = pv := by
    rw [hassoc, readU32_shift _ _ _ (by have h64 := length_u64bytes mid; have h32 := length_u32bytes pv; omega)]
    have e : 8 - (u64bytes mid).length = 0 := by rw [length_u64bytes]
    rw [e, readU32_u32bytes pv _ hpv]
  have r3 : readU16 data 12 = sb.length := by
    rw [hassoc, readU16_shift _ _ _ (by have h64 := length_u64bytes mid; have h32 := length_u32bytes pv; omega),
      readU16_shift _ _ _ (by have h64 := length_u64bytes mid; have h32 := length_u32bytes pv; omega)]
    have e1 : 12 - (u64bytes mid).length = 4 := by rw [length_u64bytes]
    rw [e1]
    have e2 : 4 - (u32bytes pv).length = 0 := by rw [length_u32bytes]
    rw [e2, readU16_lenPrefixed sb _ hs]
  have s3 : sliceLen data 14 sb.length = sb := by
    rw [hassoc, sliceLen_shift _ _ _ _ (by have h64 := length_u64bytes mid; have h32 := length_u32bytes pv; omega)]
    have e1 : 14 - (u64bytes mid).length = 6 := by rw [length_u64bytes]
    rw [e1, sliceLen_shift _ _ _ _ (by have h64 := length_u64bytes mid; have h32 := length_u32bytes pv; omega)]
    have e2 : 6 - (u32bytes pv).length = 2 := by rw [length_u32bytes]
    rw [e2, sliceLen_lenPrefixed sb _]
  have r4 : readU16 data (14 + sb.length) = mb.length := by
    rw [hassoc, readU16_shift _ _ _ (by have h64 := length_u64bytes mid; have h32 := length_u32bytes pv; omega)]
    have e1 : 14 + sb.length - (u64bytes mid).length = 6 + sb.length := by
      rw [length_u64bytes]; omega
    rw [e1, readU16_shift _ _ _ (by have h64 := length_u64bytes mid; have h32 := length_u32bytes pv; omega)]
    have e2 : 6 + sb.length - (u32bytes pv).length = 2 + sb.length := by
      rw [length_u32bytes]; omega
    rw [e2, readU16_strip sb _ _ (by omega)]
    have e3 : 2 + sb.length - (2 + sb.length) = 0 := by omega
    rw [e3, readU16_lenPrefixed mb _ hm]
  have s4 : sliceLen data (14 + sb.length + 2) mb.length = mb := by
    rw [hassoc, sliceLen_shift _ _ _ _ (by have h64 := length_u64bytes mid; have h32 := length_u32bytes pv; omega)]
    have e1 : 14 + sb.length + 2 - (u64bytes mid).length =
        6 + sb.length + 2 := by rw [length_u64bytes]; omega
    rw [e1, sliceLen_shift _ _ _ _ (by have h64 := length_u64bytes mid; have h32 := length_u32bytes pv; omega)]
    have e2 : 6 + sb.length + 2 - (u32bytes pv).length =
        2 + sb.length + 2 := by rw [length_u32bytes]; omega
    rw [e2, sliceLen_strip sb _ _ _ (by omega)]
    have e3 : 2 + sb.length + 2 - (2 + sb.length) = 2 := by omega
    rw [e3, sliceLen_lenPrefixed mb _]
  have r5 : readU32 data (14 + sb.length + 2 + mb.length) = mt := by
    rw [hassoc, readU32_shift _ _ _ (by have h64 := length_u64bytes mid; have h32 := length_u32bytes pv; omega)]
    have e1 : 14 + sb.length + 2 + mb.length - (u64bytes mid).length =
        6 + sb.length + 2 + mb.length := by rw [length_u64bytes]; omega
    rw [e1, readU32_shift _ _ _ (by have h64 := length_u64bytes mid; have h32 := length_u32bytes pv; omega)]
    have e2 : 6 + sb.length + 2 + mb.length - (u32bytes pv).length =
        2 + sb.length + 2 + mb.length := by rw [length_u32bytes]; omega
    rw [e2]
    unfold readU32
    rw [sliceLen_strip sb _ _ _ (by omega)]
    have e3 : 2 + sb.length + 2 + mb.length - (2 + sb.length) =
        2 + mb.length := by omega
    rw [e3, sliceLen_strip mb _ _ _ (by omega)]
    have e4 : 2 + mb.length - (2 + mb.length) = 0 := by omega
    rw [e4, ← readU32, readU32_u32bytes mt _ hmt]
  simp only [decodeRpc, r1, r2, r3, s3, r4, s4, r5, hlen]
  rw [if_neg (by omega), if_neg (by omega), if_neg (by omega),
    if_neg (by omega), if_neg (by omega), if_neg (by omega),
    if_neg (by omega)]

/-! ## The parameter loop on encoded pairs -/

lemma length_u16bytes (n : Nat) : (u16bytes n).length = 2 := rfl

lemma readU16_u16bytes (n : Nat) (X : List Nat) (h : n < 65536) :
    readU16 (u16bytes n ++ X) 0 = n := by
  simp only [readU16, sliceLen, u16bytes, List.cons_append, List.nil_append,
    List.drop_zero, List.take_succ_cons, List.take_zero]
  omega

/-- Started right at a break tail, the loop returns its dict unchanged. -/
lemma decodeParamsAux_break (extra : List Nat) (h : ParamBreak extra)
    (pre : List Nat) (acc : List (List Nat × List Nat)) (fuel : Nat)
    (hf : 0 < fuel) :
    decodeParamsAux fuel (pre ++ extra) pre.length acc = acc := by
  obtain ⟨f, rfl⟩ : ∃ f, fuel = f + 1 := ⟨fuel - 1, by omega⟩
  cases h with
  | nil =>
    have hl : (pre ++ ([] : List Nat)).length = pre.length := by simp
    simp only [decodeParamsAux, hl]
    rw [if_neg (by omega)]
  | single b =>
    have hl : (pre ++ [b]).length = pre.length + 1 := by simp
    simp only [decodeParamsAux, hl]
    rw [if_pos (by omega), if_pos (by omega)]
  | nameShort n t hn ht =>
    have r : readU16 (pre ++ (u16bytes n ++ t)) pre.length = n := by
      rw [readU16_shift _ _ _ le_rfl, Nat.sub_self, readU16_u16bytes n t hn]
    have hl : (pre ++ (u16bytes n ++ t)).length =
        pre.length + 2 + t.length := by
      simp [List.length_append, length_u16bytes]
      omega
    simp only [decodeParamsAux, r, hl]
    rw [if_pos (by omega), if_neg (by omega), if_pos (by omega)]
  | valueHdrShort n nm t hn hnm ht =>
    have r : readU16 (pre ++ (u16bytes n ++ (nm ++ t))) pre.length = n := by
      rw [readU16_shift _ _ _ le_rfl, Nat.sub_self,
        readU16_u16bytes n _ hn]
    have hl : (pre ++ (u16bytes n ++ (nm ++ t))).length =
        pre.length + 2 + n + t.length := by
      simp [List.length_append, length_u16bytes, hnm]
      omega
    simp only [decodeParamsAux, r, hl]
    rw [if_pos (by omega), if_neg (by omega), if_neg (by omega),
      if_pos (by omega)]
  | valueShort n v nm t hn hv hnm ht =>
    have r : readU16 (pre ++ (u16bytes n ++ (nm ++ (u16bytes v ++ t))))
        pre.length = n := by
      rw [readU16_shift _ _ _ le_rfl, Nat.sub_self,
        readU16_u16bytes n _ hn]
    have r2 : readU16 (pre ++ (u16bytes n ++ (nm ++ (u16bytes v ++ t))))
        (pre.length + 2 + n) = v := by
      rw [readU16_shift _ _ _ (by omega)]
      have e1 : pre.length + 2 + n - pre.length = 2 + n := by omega
      rw [e1, readU16_shift (u16bytes n) _ _ (by rw [length_u16bytes]; omega)]
      have e2 : 2 + n - (u16bytes n).length = n := by
        rw [length_u16bytes]; omega
      rw [e2, readU16_shift nm _ _ (by omega)]
      have e3 : n - nm.length = 0 := by omega
      rw [e3, readU16_u16bytes v t hv]
    have hl : (pre ++ (u16bytes n ++ (nm ++ (u16bytes v ++ t)))).length =
        pre.length + 2 + n + 2 + t.length := by
      simp [List.length_append, length_u16bytes, hnm]
      omega
    simp only [decodeParamsAux, r, r2, hl]
    rw [if_pos (by omega), if_neg (by omega), if_neg (by omega),
      if_neg (by omega), if_pos (by omega)]

lemma length_encPair (nm vl : List Nat) :
    (encPair nm vl).length = 4 + nm.length + vl.length := by
  simp [encPair, length_lenPrefixed, List.length_append]
  omega

/-- One iteration of the loop consumes one complete encoded pair and
performs the dict update. -/
lemma decodeParamsAux_cons (nm vl rest pre : List Nat)
    (acc : List (List Nat × List Nat)) (fuel : Nat)
    (hn : nm.length < 65536) (hv : vl.length < 65536) :
    decodeParamsAux (fuel + 1) (pre ++ (encPair nm vl ++ rest))
      pre.length acc =
      decodeParamsAux fuel (pre ++ (encPair nm vl ++ rest))
        (pre.length + 2 + nm.length + 2 + vl.length)
        (dictInsert acc (utf8DecodeIgnore nm) (utf8DecodeIgnore vl)) := by
  have hassoc : encPair nm vl ++ rest =
      lenPrefixed nm ++ (lenPrefixed vl ++ rest) := by
    simp [encPair, List.append_assoc]
  have r1 : readU16 (pre ++ (encPair nm vl ++ rest)) pre.length =
      nm.length := by
    rw [readU16_shift _ _ _ le_rfl, Nat.sub_self, hassoc,
      readU16_lenPrefixed nm _ hn]
  have s1 : sliceLen (pre ++ (encPair nm vl ++ rest)) (pre.length + 2)
      nm.length = nm := by
    rw [sliceLen_shift _ _ _ _ (by omega)]
    have e : pre.length + 2 - pre.length = 2 := by omega
    rw [e, hassoc, sliceLen_lenPrefixed nm _]
  have r2 : readU16 (pre ++ (encPair nm vl ++ rest))
      (pre.length + 2 + nm.length) = vl.length := by
    rw [readU16_shift _ _ _ (by omega)]
    have e : pre.length + 2 + nm.length - pre.length = 2 + nm.length := by
      omega
    rw [e, hassoc, readU16_strip nm _ _ (by omega), Nat.sub_self,
      readU16_lenPrefixed vl _ hv]
  have s2 : sliceLen (pre ++ (encPair nm vl ++ rest))
      (pre.length + 2 + nm.length + 2) vl.length = vl := by
    rw [sliceLen_shift _ _ _ _ (by omega)]
    have e : pre.length + 2 + nm.length + 2 - pre.length =
        2 + nm.length + 2 := by omega
    rw [e, hassoc, sliceLen_strip nm _ _ _ (by omega)]
    have e2 : 2 + nm.length + 2 - (2 + nm.length) = 2 := by omega
    rw [e2, sliceLen_lenPrefixed vl _]
  have hl : (pre ++ (encPair nm vl ++ rest)).length =
      pre.length + 4 + nm.length + vl.length + rest.length := by
    simp [List.length_append, length_encPair]
    omega
  conv_lhs => rw [decodeParamsAux]
  simp only [r1, s1, r2, s2, hl]
  rw [if_pos (by omega), if_neg (by omega), if_neg (by omega),
    if_neg (by omega), if_neg (by omega)]

/-- The loop over a run of complete pairs followed by a break tail builds
exactly the dict of those pairs. -/
lemma decodeParamsAux_enc (ps : List (List Nat × List Nat)) :
    ∀ (fuel : Nat) (pre extra : List Nat)
      (acc : List (List Nat × List Nat)),
      (∀ q ∈ ps, q.1.length < 65536 ∧ q.2.length < 65536) →
      ParamBreak extra →
      (encodeParamsRaw ps ++ extra).length < fuel →
      decodeParamsAux fuel (pre ++ (encodeParamsRaw ps ++ extra))
        pre.length acc =
        ps.foldl (fun a q => dictInsert a (utf8DecodeIgnore q.1)
          (utf8DecodeIgnore q.2)) acc := by
  induction ps with
  | nil =>
    intro fuel pre extra acc _ he hf
    simp only [encodeParamsRaw, List.map_nil, List.flatten_nil,
      List.nil_append, List.foldl_nil]
    exact decodeParamsAux_break extra he pre acc fuel
      (by simp [encodeParamsRaw] at hf; omega)
  | cons q rest ih =>
    intro fuel pre extra acc hb he hf
    have hq := hb q (by simp)
    have he1 : encodeParamsRaw (q :: rest) =
        encPair q.1 q.2 ++ encodeParamsRaw rest := by
      simp [encodeParamsRaw]
    obtain ⟨f, rfl⟩ : ∃ f, fuel = f + 1 := ⟨fuel - 1, by omega⟩
    rw [he1, List.append_assoc]
    rw [decodeParamsAux_cons q.1 q.2 (encodeParamsRaw rest ++ extra) pre
      acc f hq.1 hq.2]
    have hoff : pre.length + 2 + q.1.length + 2 + q.2.length =
        (pre ++ encPair q.1 q.2).length := by
      simp [length_encPair, List.length_append]
      omega
    rw [hoff,
      show pre ++ (encPair q.1 q.2 ++ (encodeParamsRaw rest ++ extra)) =
        (pre ++ encPair q.1 q.2) ++ (encodeParamsRaw rest ++ extra) from by
          simp [List.append_assoc]]
    have hf2 : (encodeParamsRaw rest ++ extra).length < f := by
      rw [he1] at hf
      have l1 := length_encPair q.1 q.2
      simp only [List.length_append] at hf ⊢
      omega
    rw [ih f (pre ++ encPair q.1 q.2) extra _
      (fun x hx => hb x (by simp [hx])) he hf2]
    simp [List.foldl_cons]

/-! ## Dict behaviour on distinct names -/

/-- Inserting an absent key appends it (insertion order). -/
lemma dictInsert_notmem (acc : List (List Nat × List Nat))
    (k v : List Nat) (h : ∀ q ∈ acc, q.1 ≠ k) :
    dictInsert acc k v = acc ++ [(k, v)] := by
  induction acc with
  | nil => rfl
  | cons q0 rest ih =>
    obtain ⟨k0, v0⟩ := q0
    rw [dictInsert, if_neg (h (k0, v0) (by simp))]
    rw [ih (fun q hq => h q (by simp [hq]))]
    simp

/-- Folding dict insertion over pairs with pairwise-distinct names, none
already present, appends them in order. -/
lemma foldl_dictInsert_nodup (ps : List (List Nat × List Nat)) :
    ∀ acc, List.Pairwise (fun a b => a.1 ≠ b.1) ps →
      (∀ q ∈ ps, ∀ q' ∈ acc, q'.1 ≠ q.1) →
      ps.foldl (fun a q => dictInsert a q.1 q.2) acc = acc ++ ps := by
  induction ps with
  | nil => intro acc _ _; simp
  | cons q rest ih =>
    intro acc hp hd
    rw [List.foldl_cons, dictInsert_notmem acc q.1 q.2
      (fun q' hq' => hd q (by simp) q' hq')]
    rw [ih (acc ++ [(q.1, q.2)]) hp.of_cons]
    · simp
    · intro x hx q' hq'
      rcases List.mem_append.mp hq' with h1 | h1
      · exact hd x (by simp [hx]) q' h1
      · have : q' = (q.1, q.2) := by simpa using h1
        subst this
        exact (List.pairwise_cons.mp hp).1 x hx

/-- The dict built from pairs with pairwise-distinct names is the pair
list itself. -/
lemma paramsDict_of_nodup (ps : List (List Nat × List Nat))
    (hp : List.Pairwise (fun a b => a.1 ≠ b.1) ps)
    (hvalid : ∀ q ∈ ps, (∀ c ∈ q.1, ValidCp c) ∧ (∀ c ∈ q.2, ValidCp c)) :
    paramsDict (ps.map fun q => (utf8Encode q.1, utf8Encode q.2)) = ps := by
  unfold paramsDict
  rw [List.foldl_map]
  have step : ∀ acc,
      ps.foldl (fun a q => dictInsert a
        (utf8DecodeIgnore (utf8Encode q.1))
        (utf8DecodeIgnore (utf8Encode q.2))) acc =
      ps.foldl (fun a q => dictInsert a q.1 q.2) acc := by
    induction ps with
    | nil => intro acc; rfl
    | cons q rest ih =>
      intro acc
      have hq := hvalid q (by simp)
      rw [List.foldl_cons, List.foldl_cons,
        utf8_roundtrip q.1 hq.1, utf8_roundtrip q.2 hq.2]
      exact ih hp.of_cons (fun x hx => hvalid x (by simp [hx])) _
  rw [step [], foldl_dictInsert_nodup ps [] hp (by simp)]
  simp

/-- Full characterization of `decode_rpc_frame` on a well-formed head,
any run of complete pairs, and any break tail. -/
lemma decodeRpc_raw (mid pv : Nat) (sb mb : List Nat) (mt : Nat)
    (ps : List (List Nat × List Nat)) (extra : List Nat)
    (hmid : mid < 18446744073709551616) (hpv : pv < 4294967296)
    (hs : sb.length < 65536) (hm : mb.length < 65536)
    (hmt : mt < 4294967296)
    (hps : ∀ q ∈ ps, q.1.length < 65536 ∧ q.2.length < 65536)
    (he : ParamBreak extra) :
    decodeRpc (rawEncodeB mid pv sb mb mt ps ++ extra) =
      .ok mid pv (utf8DecodeIgnore sb) (utf8DecodeIgnore mb) mt
        (paramsDict ps) := by
  have hassoc : rawEncodeB mid pv sb mb mt ps ++ extra =
      rawEncodeBHead mid pv sb mb mt ++ (encodeParamsRaw ps ++ extra) := by
    simp [rawEncodeB, List.append_assoc]
  rw [hassoc, decodeRpc_head mid pv sb mb mt _ hmid hpv hs hm hmt]
  have hoff : 14 + sb.length + 2 + mb.length + 4 =
      (rawEncodeBHead mid pv sb mb mt).length := by
    rw [length_rawEncodeBHead]
    omega
  rw [hoff]
  unfold decodeParams
  rw [decodeParamsAux_enc ps _ _ extra [] hps he
    (by simp only [List.length_append]; omega)]
  rfl

/-! ## Claim theorems -/

set_option maxRecDepth 4000 in
/-- C1 (counterexample): a matched `udp_sendmsg` event with a 257-byte
payload produces a record whose `data_len` field is 256 — the truncated
length — while the true original length is 257, so `payload_len` does not
record the true original payload length. -/
theorem C1_counterexample :
    (traceUdpSendmsg ⟨1, 40000, some 9000, List.replicate 257 7, true⟩
      none).1 =
      some ⟨1, 9000, 40000, 256, List.replicate 256 7⟩ ∧
    (256 : Nat) ≠ 257 := by
  exact ⟨by decide, by decide⟩

/-- C1 (amended): in both capture variants, a matched packet whose
payload exceeds `MAX_DATA_LEN` yields a record whose copied prefix has
length exactly `MAX_DATA_LEN`, equal to the first `MAX_DATA_LEN` payload
bytes, and whose `data_len` field records the truncated length
`MAX_DATA_LEN` (not the original length). -/
theorem C1_amended :
    (∀ (ev : SendmsgEvent) (c : Option Nat),
      ev.msgName = some UDP_PORT → ev.readOk = true →
      MAX_DATA_LEN < ev.payload.length →
      ∃ r : DataRecord, (traceUdpSendmsg ev c).1 = some r ∧
        r.data.length = MAX_DATA_LEN ∧ r.dataLen = MAX_DATA_LEN ∧
        r.data = ev.payload.take MAX_DATA_LEN) ∧
    (∀ (pkt : TCPacket) (c : Option Nat),
      pkt.ethProto = ETH_P_IP → pkt.ipProtocol = IPPROTO_UDP →
      pkt.udpDest = UDP_PORT → pkt.udpLen = 8 + pkt.payload.length →
      MAX_DATA_LEN < pkt.payload.length →
      ∃ r : TCRecord, (handleEgress pkt c).1 = some r ∧
        r.data.length = MAX_DATA_LEN ∧ r.dataLen = MAX_DATA_LEN ∧
        r.data = pkt.payload.take MAX_DATA_LEN) := by
  constructor
  · intro ev c hport hread hlong
    refine ⟨⟨ev.pid, UDP_PORT, ev.sport, MAX_DATA_LEN,
      ev.payload.take MAX_DATA_LEN⟩, ?_, ?_, rfl, rfl⟩
    · rw [traceUdpSendmsg]
      simp only [hport, hread, Option.getD_some]
      rw [if_neg (by omega), if_neg (by simp)]
      have hmin : min ev.payload.length MAX_DATA_LEN = MAX_DATA_LEN := by
        omega
      rw [hmin]
    · rw [List.length_take]
      omega
  · intro pkt c heth hip hport hlen hlong
    refine ⟨⟨pkt.udpDest, pkt.udpSource, MAX_DATA_LEN,
      pkt.payload.take MAX_DATA_LEN⟩, ?_, ?_, rfl, rfl⟩
    · rw [handleEgress]
      rw [if_neg (by omega), if_neg (by omega), if_neg (by omega),
        if_pos (by omega)]
      have hmin : min (pkt.udpLen - 8) MAX_DATA_LEN = MAX_DATA_LEN := by
        omega
      rw [hmin]
    · rw [List.length_take]
      omega

/-- C1 (witness): the socket-probe branch at a concrete 257-byte event. -/
theorem C1_witness :
    ∃ r : DataRecord,
      (traceUdpSendmsg ⟨1, 1, some UDP_PORT, List.replicate 257 7, true⟩
        none).1 = some r ∧
      r.data.length = MAX_DATA_LEN ∧ r.dataLen = MAX_DATA_LEN ∧
      r.data = (List.replicate 257 7).take MAX_DATA_LEN :=
  C1_amended.1 ⟨1, 1, some UDP_PORT, List.replicate 257 7, true⟩ none rfl
    rfl (by rw [List.length_replicate]; decide)

/-- C5: with the filter port baked in as `UDP_PORT`, a packet whose
relevant destination port differs emits no record and leaves the shared
counter exactly as it was, in both capture variants. -/
theorem C5_no_emission_on_port_mismatch :
    (∀ (ev : SendmsgEvent) (c : Option Nat),
      ev.msgName.getD 0 ≠ UDP_PORT → traceUdpSendmsg ev c = (none, c)) ∧
    (∀ (pkt : TCPacket) (c : Option Nat),
      pkt.udpDest ≠ UDP_PORT → handleEgress pkt c = (none, c)) := by
  constructor
  · intro ev c h
    rw [traceUdpSendmsg, if_pos h]
  · intro pkt c h
    rw [handleEgress]
    split_ifs <;> rfl

/-- C5 (witness): a concrete packet to port 9001 under filter 9000. -/
theorem C5_witness :
    traceUdpSendmsg ⟨1, 1, some 9001, [1, 2, 3], true⟩ (some 5) =
        (none, some 5) ∧
      handleEgress ⟨ETH_P_IP, IPPROTO_UDP, 9001, 1, 11, [1, 2, 3]⟩
        (some 5) = (none, some 5) :=
  ⟨C5_no_emission_on_port_mismatch.1 ⟨1, 1, some 9001, [1, 2, 3], true⟩
      (some 5) (by decide),
    C5_no_emission_on_port_mismatch.2
      ⟨ETH_P_IP, IPPROTO_UDP, 9001, 1, 11, [1, 2, 3]⟩ (some 5) (by decide)⟩

/-- C6: in the socket-probe program, when the bounded user-memory read
fails on a matched packet, the event is dropped: no record is emitted and
the counter value is unchanged. -/
theorem C6_read_failure_drops_event :
    ∀ (ev : SendmsgEvent) (c : Option Nat),
      ev.msgName = some UDP_PORT → ev.readOk = false →
      traceUdpSendmsg ev c = (none, c) := by
  intro ev c hport hread
  rw [traceUdpSendmsg]
  simp only [hport, Option.getD_some]
  rw [if_neg (by omega), if_pos (by rw [hread])]

/-- C6 (witness): a concrete matched event with a failing read. -/
theorem C6_witness :
    traceUdpSendmsg ⟨1, 1, some UDP_PORT, [1, 2, 3], false⟩ (some 5) =
      (none, some 5) :=
  C6_read_failure_drops_event ⟨1, 1, some UDP_PORT, [1, 2, 3], false⟩
    (some 5) rfl rfl

/-- C7: a second teardown — hooks already absent — propagates no
exception to the caller, in the pyroute2-based teardown of `tc.py`
(`try/except: pass` around each removal) and in the `os.system`-based
teardown of `intercept_tc.py` (failure is an exit status, not an
exception). -/
theorem C7_detach_idempotent :
    ∀ (s : TCHooks) (b : Bool),
      (detach (detach s).1).2 = false ∧ (detach s).2 = false ∧
      (detachIntercept (detachIntercept b).1).2 = false ∧
      (detachIntercept b).2 = false := by
  intro s b
  exact ⟨rfl, rfl, rfl, rfl⟩

/-- C9: the concrete Variant A buffer
`[3,"api", 3,"Get", 0, b"abc"]` (lengths as little-endian u16) decodes to
service `"api"`, method `"Get"`, empty header and payload `"abc"`. -/
theorem C9_concrete_decode :
    decodeArpc [3, 0, 97, 112, 105, 3, 0, 71, 101, 116, 0, 0,
      97, 98, 99] =
      .ok [97, 112, 105] [71, 101, 116] [] [97, 98, 99] := by
  decide

/-- C4: Variant A round-trip — decoding a well-formed frame (service and
method made of Unicode scalar values, u16-bounded field lengths) recovers
every field, and re-encoding the recovered fields reproduces the original
bytes exactly. -/
theorem C4_roundtrip_A (svc mth hb p : List Nat)
    (hsv : ∀ c ∈ svc, ValidCp c) (hmv : ∀ c ∈ mth, ValidCp c)
    (hs : (utf8Encode svc).length < 65536)
    (hm : (utf8Encode mth).length < 65536) (hh : hb.length < 65536) :
    decodeArpc (encodeA svc mth hb p) = .ok svc mth hb p ∧
    reencodeA (decodeArpc (encodeA svc mth hb p)) =
      some (encodeA svc mth hb p) := by
  have h1 : decodeArpc (encodeA svc mth hb p) = .ok svc mth hb p := by
    rw [encodeA, decodeArpc_rawEncodeA _ _ _ _ hs hm hh,
      utf8_roundtrip svc hsv, utf8_roundtrip mth hmv]
  exact ⟨h1, by rw [h1]; rfl⟩

/-- C4 (witness): round-trip at a concrete frame. -/
theorem C4_witness :
    decodeArpc (encodeA [97] [71] [255] [9]) = .ok [97] [71] [255] [9] ∧
    reencodeA (decodeArpc (encodeA [97] [71] [255] [9])) =
      some (encodeA [97] [71] [255] [9]) :=
  C4_roundtrip_A [97] [71] [255] [9] (by decide) (by decide) (by decide)
    (by decide) (by decide)

/-- C3 (counterexample): the `intercept_tc.py` copy of the Variant A
decoder violates the claim: on the 2-byte buffer `[3, 0]`
(`service_len = 3`, content absent) it lands in the generic caught
`struct.error` path instead of a `Truncated`-style failure naming
`"service"` at offset 2, and on a frame whose declared 5-byte header is
cut to 2 bytes it even reports success with a shortened header. -/
theorem C3_counterexample :
    decodeArpcTC [3, 0] = ATCResult.caught ∧
    decodeArpcTC [1, 0, 115, 1, 0, 109, 5, 0, 1, 2] =
      ATCResult.ok [115] [109] [1, 2] [] := by
  exact ⟨by decide, by decide⟩

/-- C3 (amended): the `intercept_sendmsg.py` copy of the Variant A
decoder satisfies the contract: any well-formed frame cut strictly before
the end of a declared-length field fails with the name of that field and
the exact offset of the failing check (`specTruncationA`), and in
particular the buffer `[3, 0]` fails with `Truncated("service", 2)`.  The
`intercept_tc.py` copy does not (see the counterexample). -/
theorem C3_amended :
    (∀ (sb mb hb p : List Nat) (k : Nat),
      sb.length < 65536 → mb.length < 65536 → hb.length < 65536 →
      k < 6 + sb.length + mb.length + hb.length →
      decodeArpc ((rawEncodeA sb mb hb p).take k) =
        specTruncationA sb.length mb.length k) ∧
    decodeArpc [3, 0] = .tooShort "service" 2 := by
  exact ⟨fun sb mb hb p k hs hm hh hk =>
    decodeArpc_take sb mb hb p k hs hm hh hk, by decide⟩

/-- C3 (witness): a concrete frame cut inside the service field. -/
theorem C3_witness :
    decodeArpc ((rawEncodeA [97, 98] [99] [] []).take 3) =
      specTruncationA 2 1 3 :=
  C3_amended.1 [97, 98] [99] [] [] 3 (by decide) (by decide) (by decide)
    (by decide)

/-- C10: neither decoder can fail because of invalid UTF-8 content: a
structurally well-formed buffer decodes successfully whatever the bytes
of its string fields, which pass through `utf8DecodeIgnore`; un-decodable
bytes are silently dropped, so the decoded string can be shorter than the
declared field length (`[0xFF]` decodes to the empty string). -/
theorem C10_utf8_tolerance :
    (∀ sb mb hb p : List Nat,
      sb.length < 65536 → mb.length < 65536 → hb.length < 65536 →
      decodeArpc (rawEncodeA sb mb hb p) =
        .ok (utf8DecodeIgnore sb) (utf8DecodeIgnore mb) hb p) ∧
    (∀ (mid pv mt : Nat) (sb mb : List Nat)
      (ps : List (List Nat × List Nat)),
      mid < 18446744073709551616 → pv < 4294967296 → mt < 4294967296 →
      sb.length < 65536 → mb.length < 65536 →
      (∀ q ∈ ps, q.1.length < 65536 ∧ q.2.length < 65536) →
      decodeRpc (rawEncodeB mid pv sb mb mt ps) =
        .ok mid pv (utf8DecodeIgnore sb) (utf8DecodeIgnore mb) mt
          (paramsDict ps)) ∧
    utf8DecodeIgnore [255] = [] ∧
    decodeArpc (rawEncodeA [255] [] [] []) = .ok [] [] [] [] := by
  refine ⟨fun sb mb hb p hs hm hh =>
      decodeArpc_rawEncodeA sb mb hb p hs hm hh,
    fun mid pv mt sb mb ps hmid hpv hmt hs hm hps => ?_,
    by decide, by decide⟩
  have h := decodeRpc_raw mid pv sb mb mt ps [] hmid hpv hs hm hmt hps
    ParamBreak.nil
  rwa [List.append_nil] at h

/-- C10 (witness): both universal parts at concrete invalid-UTF-8
fields. -/
theorem C10_witness :
    decodeArpc (rawEncodeA [255] [128] [7] [8]) =
        .ok (utf8DecodeIgnore [255]) (utf8DecodeIgnore [128]) [7] [8] ∧
      decodeRpc (rawEncodeB 1 2 [255] [128] 3 [([250], [97])]) =
        .ok 1 2 (utf8DecodeIgnore [255]) (utf8DecodeIgnore [128]) 3
          (paramsDict [([250], [97])]) :=
  ⟨C10_utf8_tolerance.1 [255] [128] [7] [8] (by decide) (by decide)
      (by decide),
    C10_utf8_tolerance.2.1 1 2 3 [255] [128] [([250], [97])] (by decide)
      (by decide) (by decide) (by decide) (by decide)
      (by intro q hq; simp at hq; rw [hq]; exact ⟨by decide, by decide⟩)⟩

/-- C2 (counterexample): with two parameter pairs sharing the name
`"k"`, the dict built by `decode_rpc_frame` collapses them to one entry,
so re-encoding the recovered fields cannot reproduce the original bytes:
the round-trip law fails for duplicate parameter names. -/
theorem C2_counterexample :
    reencodeB (decodeRpc (rawEncodeB 0 0 [115] [109] 0
        [([107], [97]), ([107], [98])])) ≠
      some (rawEncodeB 0 0 [115] [109] 0
        [([107], [97]), ([107], [98])]) := by
  decide

/-- C2 (amended): the Variant B round-trip law holds for every
well-formed frame whose parameter names are pairwise distinct (the code
stores parameters in a dict, so duplicate names collapse; distinctness is
exactly what the counterexample forces). -/
theorem C2_roundtrip_B (mid pv mt : Nat) (svc mth : List Nat)
    (ps : List (List Nat × List Nat))
    (hmid : mid < 18446744073709551616) (hpv : pv < 4294967296)
    (hmt : mt < 4294967296)
    (hsv : ∀ c ∈ svc, ValidCp c) (hmv : ∀ c ∈ mth, ValidCp c)
    (hs : (utf8Encode svc).length < 65536)
    (hm : (utf8Encode mth).length < 65536)
    (hps : ∀ q ∈ ps, (∀ c ∈ q.1, ValidCp c) ∧ (∀ c ∈ q.2, ValidCp c) ∧
      (utf8Encode q.1).length < 65536 ∧ (utf8Encode q.2).length < 65536)
    (hnodup : List.Pairwise (fun a b => a.1 ≠ b.1) ps) :
    decodeRpc (encodeB mid pv svc mth mt ps) = .ok mid pv svc mth mt ps ∧
    reencodeB (decodeRpc (encodeB mid pv svc mth mt ps)) =
      some (encodeB mid pv svc mth mt ps) := by
  have h1 : decodeRpc (encodeB mid pv svc mth mt ps) =
      .ok mid pv svc mth mt ps := by
    rw [encodeB]
    have h := decodeRpc_raw mid pv (utf8Encode svc) (utf8Encode mth) mt
      (ps.map fun q => (utf8Encode q.1, utf8Encode q.2)) [] hmid hpv hs hm
      hmt ?_ ParamBreak.nil
    · rw [List.append_nil] at h
      rw [h, utf8_roundtrip svc hsv, utf8_roundtrip mth hmv,
        paramsDict_of_nodup ps hnodup
          (fun q hq => ⟨(hps q hq).1, (hps q hq).2.1⟩)]
    · intro q hq
      rcases List.mem_map.mp hq with ⟨x, hx, rfl⟩
      exact ⟨(hps x hx).2.2.1, (hps x hx).2.2.2⟩
  exact ⟨h1, by rw [h1]; rfl⟩

/-- C2 (witness): round-trip at a concrete frame with one pair. -/
theorem C2_witness :
    decodeRpc (encodeB 42 1 [115] [71] 0 [([107], [118])]) =
        .ok 42 1 [115] [71] 0 [([107], [118])] ∧
      reencodeB (decodeRpc (encodeB 42 1 [115] [71] 0 [([107], [118])])) =
        some (encodeB 42 1 [115] [71] 0 [([107], [118])]) :=
  C2_roundtrip_B 42 1 0 [115] [71] [([107], [118])] (by decide) (by decide)
    (by decide) (by decide) (by decide) (by decide) (by decide)
    (by intro q hq; simp at hq; rw [hq]
        exact ⟨by decide, by decide, by decide, by decide⟩)
    (by simp)

/-- C8: a partial trailing parameter pair (a length header present, the
corresponding content missing) never invalidates the parameters already
decoded: the frame still decodes `OK`, to exactly the result of the frame
without the partial pair. -/
theorem C8_partial_pair (mid pv mt : Nat) (sb mb : List Nat)
    (ps : List (List Nat × List Nat)) (extra : List Nat)
    (hmid : mid < 18446744073709551616) (hpv : pv < 4294967296)
    (hmt : mt < 4294967296) (hs : sb.length < 65536)
    (hm : mb.length < 65536)
    (hps : ∀ q ∈ ps, q.1.length < 65536 ∧ q.2.length < 65536)
    (hcut : ParamBreak extra) :
    decodeRpc (rawEncodeB mid pv sb mb mt ps ++ extra) =
      decodeRpc (rawEncodeB mid pv sb mb mt ps) ∧
    decodeRpc (rawEncodeB mid pv sb mb mt ps ++ extra) =
      .ok mid pv (utf8DecodeIgnore sb) (utf8DecodeIgnore mb) mt
        (paramsDict ps) := by
  have h1 := decodeRpc_raw mid pv sb mb mt ps extra hmid hpv hs hm hmt hps
    hcut
  have h0 := decodeRpc_raw mid pv sb mb mt ps [] hmid hpv hs hm hmt hps
    ParamBreak.nil
  rw [List.append_nil] at h0
  exact ⟨by rw [h1, h0], h1⟩

/-- C8 (witness): one complete pair followed by a partial pair whose name
bytes are missing. -/
theorem C8_witness :
    decodeRpc (rawEncodeB 0 0 [115] [109] 0 [([107], [97])] ++
        (u16bytes 2 ++ [107])) =
      decodeRpc (rawEncodeB 0 0 [115] [109] 0 [([107], [97])]) ∧
    decodeRpc (rawEncodeB 0 0 [115] [109] 0 [([107], [97])] ++
        (u16bytes 2 ++ [107])) =
      .ok 0 0 (utf8DecodeIgnore [115]) (utf8DecodeIgnore [109]) 0
        (paramsDict [([107], [97])]) :=
  C8_partial_pair 0 0 0 [115] [109] [([107], [97])] (u16bytes 2 ++ [107])
    (by decide) (by decide) (by decide) (by decide) (by decide)
    (by intro q hq; simp at hq; rw [hq]; exact ⟨by decide, by decide⟩)
    (ParamBreak.nameShort 2 [107] (by decide) (by decide))

end ARPC
